import Mathlib

/-!
Verification development for the SPSC (single-producer / single-consumer)
bounded FIFO queue of `include/bm/bm_sim/spsc_queue.h` (class `bm::SPSCQueue`).

Embedding conventions:

* `index_t = uint64_t` values are embedded as `Nat` together with explicit
  64-bit modular operations `uadd` / `usub` (addition and subtraction mod
  `2 ^ 64`), mirroring C++ unsigned wrap-around semantics.  `size_t` fields
  (`ring_capacity`, `queue_capacity`) are embedded as plain `Nat`.
* The queue object is the record `SPSCQueue.State`; its fields carry the
  names of the C++ data members.  The two `Semaphore` members are embedded
  as their latch flag (a `Bool`): `signal()` sets the flag, `wait()`
  consumes it.
* Each member function becomes a pure state-transformer.  The blocking
  loops (`prod_wait_space`, `cons_wait_data`) are modelled by (a) their
  fast path — callers such as `push_front` are analysed under the
  hypothesis that the space/data check succeeds, which is exactly the
  condition under which the loop returns without waiting — and (b) an
  explicit one-iteration transformer (`prod_wait_space_once`,
  `cons_wait_data_once`) for the slow path up to the semaphore park.
* `ring` is embedded as a total function from slot positions to elements;
  `ring[i] = x` becomes `Function.update ring i x`.
-/

namespace SPSCQueue

/-- Modulus of `index_t = uint64_t` arithmetic, `2 ^ 64`. -/
def M : Nat := 2 ^ 64

/-- Value of `max_size = 1ul << (sizeof(index_t)*8 - 1) = 2 ^ 63`. -/
def maxSize : Nat := 2 ^ 63

/-- uint64 addition: `(a + b)` reduced mod `2 ^ 64`. -/
def uadd (a b : Nat) : Nat := (a + b) % M

/-- uint64 subtraction: the value of `index_t(a - b)`, i.e. `a - b` in
`ZMod (2 ^ 64)` lifted back to `Nat`. -/
def usub (a b : Nat) : Nat := (a % M + (M - b % M)) % M

theorem usub_eq_sub {a b : Nat} (h1 : b ≤ a) (h2 : a - b < M) :
    usub a b = a - b := by
  unfold usub M at *
  omega

theorem uadd_eq_add {a b : Nat} (h : a + b < M) : uadd a b = a + b := by
  unfold uadd M at *
  omega

theorem usub_lt (a b : Nat) : usub a b < M := by
  unfold usub M
  omega

/-- Value of the IEEE-754 binary64 conversion `(double)n` of a `size_t`
`n < 2 ^ 64`, as a natural number (for such `n` the converted double is
always a nonnegative integer).  The conversion rounds to nearest, ties to
even, at 53 significand bits: exact for `n ≤ 2 ^ 53`, otherwise `n` is
rounded to the nearest multiple of `2 ^ (⌊log2 n⌋ - 52)`. -/
def toDouble (n : Nat) : Nat :=
  if n < 2 ^ 53 then n
  else
    let e := Nat.log 2 n
    let u := 2 ^ (e - 52)
    let q := n / u
    let r := n % u
    if 2 * r < u then q * u
    else if u < 2 * r then (q + 1) * u
    else if q % 2 = 0 then q * u else (q + 1) * u

/-- Ring size `ring_capacity` as computed by the constructor's initializer
`1ul << uint64_t(ceil(log2(max_capacity)))`.  The `log2` call is the
`double` overload, so `max_capacity` is first converted to `double`
(`toDouble`, round-to-nearest-even — lossy above `2 ^ 53`).  For the
resulting positive integer `d`, the real number `ceil(log2 d)` equals
`Nat.clog 2 d`, which is what the machine computes whenever the platform
`log2` lands on the correct side of the integer below: always when `d` is
a power of two, and for every faithfully rounded (error `< 1` ulp) `log2`
whenever `d ≤ 2 ^ 48`; for `d` in `(2 ^ 48, 2 ^ 53]` just above a power
of two, real libms may round `log2 d` down to the integer and produce the
next lower power — no theorem below relies on the modeled value in that
range.  For `max_capacity = 0` the C++ converts `ceil(log2(0.0)) = -inf`
to `uint64_t`, which is undefined behavior; on mainstream (x86-64)
implementations the conversion produces `2 ^ 63` and the shift count is
masked to `0`, yielding `ring_capacity = 1` — reproduced here by
`toDouble 0 = 0` and `Nat.clog 2 0 = 0`. -/
def ringCapacity (c : Nat) : Nat := 1 <<< Nat.clog 2 (toDouble c)

/-- Queue state: the data members of `bm::SPSCQueue<T>`.  Counters are
`uint64_t` values (kept `< 2 ^ 64` along every execution that starts from
`initState`); the semaphores are embedded as their latch flags. -/
structure State (T : Type) where
  ring_capacity : Nat
  queue_capacity : Nat
  ring : Nat → T
  __prod_index : Nat
  prod_event : Nat
  prod_ci : Nat
  prod_pi : Nat
  __cons_index : Nat
  cons_event : Nat
  cons_ci : Nat
  cons_pi : Nat
  prod_sem : Bool
  cons_sem : Bool
  cons_not : Nat
  prod_not : Nat

/-- The state produced by `SPSCQueue(max_capacity)`: every counter is
zero-initialized, the semaphore flags start false, and the freshly
allocated ring (`new T[ring_capacity]`) holds arbitrary default contents
`f`. -/
def initState {T : Type} (f : Nat → T) (max_capacity : Nat) : State T :=
  { ring_capacity := ringCapacity max_capacity
    queue_capacity := max_capacity
    ring := f
    __prod_index := 0
    prod_event := 0
    prod_ci := 0
    prod_pi := 0
    __cons_index := 0
    cons_event := 0
    cons_ci := 0
    cons_pi := 0
    prod_sem := false
    cons_sem := false
    cons_not := 0
    prod_not := 0 }

/-- Slot mapping `normalize_index(index) = index & (ring_capacity - 1)`. -/
def normalize_index {T : Type} (s : State T) (index : Nat) : Nat :=
  index &&& (s.ring_capacity - 1)

/-- Check `prod_has_space(want)`: refreshes the producer's shadow
`prod_ci = __cons_index` and returns
`index_t(prod_pi - prod_ci) <= queue_capacity - want`. -/
def prod_has_space {T : Type} (s : State T) (want : Nat) : State T × Bool :=
  let s1 := { s with prod_ci := s.__cons_index }
  (s1, decide (usub s1.prod_pi s1.prod_ci ≤ usub s1.queue_capacity want))

/-- Check `cons_has_data(want)`: refreshes the consumer's shadow
`cons_pi = __prod_index` and returns
`index_t(cons_pi - cons_ci) >= want`. -/
def cons_has_data {T : Type} (s : State T) (want : Nat) : State T × Bool :=
  let s1 := { s with cons_pi := s.__prod_index }
  (s1, decide (want ≤ usub s1.cons_pi s1.cons_ci))

/-- Notify `cons_notify()`: publish `__cons_index = cons_ci`; signal the producer
semaphore (and bump `cons_not`) iff
`index_t(cons_ci - prod_event - 1) < index_t(cons_ci - old)` where `old`
is the previously published `__cons_index`. -/
def cons_notify {T : Type} (s : State T) : State T :=
  let old := s.__cons_index
  let s1 := { s with __cons_index := s.cons_ci }
  let pe := s1.prod_event
  if usub (usub s1.cons_ci pe) 1 < usub s1.cons_ci old then
    { s1 with prod_sem := true, cons_not := s1.cons_not + 1 }
  else
    s1

/-- Advance `cons_advance(have)`: `cons_ci += have`; if `cons_pi == cons_ci`,
run `cons_notify`. -/
def cons_advance {T : Type} (s : State T) (n : Nat) : State T :=
  let s1 := { s with cons_ci := uadd s.cons_ci n }
  if s1.cons_pi = s1.cons_ci then cons_notify s1 else s1

/-- Notify `prod_notify()`: publish `__prod_index = prod_pi`; signal the consumer
semaphore (and bump `prod_not`) iff
`index_t(prod_pi - cons_event - 1) < index_t(prod_pi - old)` where `old`
is the previously published `__prod_index`. -/
def prod_notify {T : Type} (s : State T) : State T :=
  let old := s.__prod_index
  let s1 := { s with __prod_index := s.prod_pi }
  let ce := s1.cons_event
  if usub (usub s1.prod_pi ce) 1 < usub s1.prod_pi old then
    { s1 with cons_sem := true, prod_not := s1.prod_not + 1 }
  else
    s1

/-- Advance `prod_advance(have, force)`: `prod_pi += have`; if `force`, run
`prod_notify`. -/
def prod_advance {T : Type} (s : State T) (n : Nat) (force : Bool) : State T :=
  let s1 := { s with prod_pi := uadd s.prod_pi n }
  if force then prod_notify s1 else s1

/-- Push `push_front(item, force)` / `push_front_forward`: ensure one free slot
(`prod_wait_space(1)` — modelled by its fast path, i.e. the state effect of
the `prod_has_space(1)` shadow refresh; callers are analysed under the
hypothesis that the space check succeeds, the condition under which
`prod_wait_space` returns), store the item at
`ring[normalize_index(prod_pi)]`, then `prod_advance(1, force)`.
Returns `true` unconditionally, as in the source. -/
def push_front {T : Type} (s : State T) (item : T) (force : Bool) :
    Bool × State T :=
  let s1 := (prod_has_space s 1).1
  let s2 :=
    { s1 with ring := Function.update s1.ring (normalize_index s1 s1.prod_pi) item }
  (true, prod_advance s2 1 force)

/-- Single-element `pop_back(T* pItem)`: `cons_wait_data(1)` (fast path:
the `cons_has_data(1)` shadow refresh), move `ring[normalize_index(cons_ci)]`
out, `cons_advance(1)`.  Returns `true` unconditionally, together with the
popped element. -/
def pop_back {T : Type} (s : State T) : Bool × State T × T :=
  let s1 := (cons_has_data s 1).1
  let x := s1.ring (normalize_index s1 s1.cons_ci)
  (true, cons_advance s1 1, x)

/-- Batch `pop_back(std::vector<T>* container)`: `num = cons_wait_data(1)`
(which returns `cons_pi - cons_ci` after the shadow refresh), then a loop
`container->push_back(ring[normalize_index(cons_ci + i)])` for
`i = 0 .. num-1`, then `cons_advance(num)`.  Returns `true`
unconditionally, together with the updated container. -/
def pop_back_vec {T : Type} (s : State T) (container : List T) :
    Bool × State T × List T :=
  let s1 := (cons_has_data s 1).1
  let num := usub s1.cons_pi s1.cons_ci
  let c1 := (List.range num).foldl
    (fun c i => c ++ [s1.ring (normalize_index s1 (uadd s1.cons_ci i))])
    container
  (true, cons_advance s1 num, c1)

/-- Outcome of one iteration of a wait loop: the loop either breaks out
(`ready`) or reaches the semaphore `wait()` call (`park`). -/
inductive WaitStep (T : Type) where
  | ready (s : State T)
  | park (s : State T)

/-- The state carried by a `WaitStep`. -/
def WaitStep.state {T : Type} : WaitStep T → State T
  | .ready s => s
  | .park s => s

/-- One iteration of the `prod_wait_space(want)` loop body, up to the
`prod_sem.wait()` call: check `prod_has_space(want)` (break if true),
publish `prod_event = prod_ci + index_t(prod_pi - prod_ci) / 4`, run
`prod_notify()`, re-check `prod_has_space(want)` (break if true),
otherwise park on the producer semaphore. -/
def prod_wait_space_once {T : Type} (s : State T) (want : Nat) : WaitStep T :=
  let r1 := prod_has_space s want
  if r1.2 then .ready r1.1
  else
    let s2 := { r1.1 with prod_event := uadd r1.1.prod_ci (usub r1.1.prod_pi r1.1.prod_ci / 4) }
    let s3 := prod_notify s2
    let r2 := prod_has_space s3 want
    if r2.2 then .ready r2.1 else .park r2.1

/-- The producer waking from `prod_sem.wait()`: the latch is consumed and
`prod_ci = __cons_index` is reloaded before the loop restarts. -/
def prodWake {T : Type} (s : State T) : State T :=
  { s with prod_sem := false, prod_ci := s.__cons_index }

/-- The consumer waking from `cons_sem.wait()`: the latch is consumed. -/
def consWake {T : Type} (s : State T) : State T :=
  { s with cons_sem := false }

/-- One iteration of the `cons_wait_data(want)` loop body, up to the
`cons_sem.wait()` call: check `cons_has_data(want)` (break if true), sleep
`cons_sleep_time`, re-check (break if true), publish
`cons_event = cons_ci + want - 1`, run `cons_notify()`, re-check (break if
true), otherwise park on the consumer semaphore. -/
def cons_wait_data_once {T : Type} (s : State T) (want : Nat) : WaitStep T :=
  let r1 := cons_has_data s want
  if r1.2 then .ready r1.1
  else
    let r2 := cons_has_data r1.1 want
    if r2.2 then .ready r2.1
    else
      let s3 := { r2.1 with cons_event := usub (uadd r2.1.cons_ci want) 1 }
      let s4 := cons_notify s3
      let r3 := cons_has_data s4 want
      if r3.2 then .ready r3.1 else .park r3.1

/-- The threshold-crossing test used by both notify functions: a threshold
`t` was crossed by an advance from `old` to `neu` iff
`unsigned(neu - t - 1) < unsigned(neu - old)`.  In `cons_notify` this is
instantiated with `old = __cons_index`, `neu = cons_ci`, `t = prod_event`;
in `prod_notify` with `old = __prod_index`, `neu = prod_pi`,
`t = cons_event`. -/
def crossedTest (old neu t : Nat) : Bool :=
  decide (usub (usub neu t) 1 < usub neu old)

/-- The observable result of running the constructor `SPSCQueue(c)`:
`some (ring_capacity, queue_capacity)` when the debug assertion
`assert(ring_capacity <= max_size)` — the only validity check the
constructor performs — passes, `none` when it aborts. -/
def construct (c : Nat) : Option (Nat × Nat) :=
  if ringCapacity c ≤ maxSize then some (ringCapacity c, c) else none

/-- The sequence of elements currently available to the consumer: the ring
slots from `cons_ci` (inclusive) up to the published `__prod_index`
(exclusive), in queue order. -/
def avail {T : Type} (s : State T) : List T :=
  (List.range (usub s.__prod_index s.cons_ci)).map
    (fun i => s.ring (normalize_index s (uadd s.cons_ci i)))

/-- A sequence of forced pushes, each guarded by its `prod_has_space(1)`
check: returns `none` if any push would have to wait (in a sequential
producer-only run, waiting would never terminate), mirroring that
`prod_wait_space(1)` returns immediately exactly when the check holds. -/
def pushListG {T : Type} : State T → List T → Option (State T)
  | s, [] => some s
  | s, x :: xs =>
    if (prod_has_space s 1).2 then pushListG (push_front s x true).2 xs
    else none

/-- A sequence of `n` single-element pops, each guarded by its
`cons_has_data(1)` check, collecting the popped elements in order. -/
def popNG {T : Type} : State T → Nat → Option (State T × List T)
  | s, 0 => some (s, [])
  | s, n + 1 =>
    if (cons_has_data s 1).2 then
      match popNG (pop_back s).2.1 n with
      | some (s2, out) => some (s2, (pop_back s).2.2 :: out)
      | none => none
    else none

/-- The ring contents after writing the elements of `ys` to consecutive
slots `k % N, (k+1) % N, ...` of an `N`-slot ring whose prior contents
are `g` — the sequence of slot stores performed by a run of pushes,
including wrap-around overwrites. -/
def ringWrites {T : Type} (N : Nat) : Nat → List T → (Nat → T) → Nat → T
  | _, [], g => g
  | k, y :: ys, g => ringWrites N (k + 1) ys (Function.update g (k % N) y)

/-- One completed operation (or slow-path loop iteration) of either
endpoint, at the sequential-interleaving granularity.  Producer steps:
a completed push (its `prod_wait_space(1)` check holds), one stalled
`prod_wait_space` iteration, a wake-up from `prod_sem.wait()`.  Consumer
steps: a completed single or batch pop (its `cons_has_data(1)` check
holds), one stalled `cons_wait_data` iteration, a wake-up from
`cons_sem.wait()`. -/
inductive Step {T : Type} (s : State T) : State T → Prop where
  | push (x : T) (force : Bool) (h : (prod_has_space s 1).2 = true) :
      Step s (push_front s x force).2
  | pop (h : (cons_has_data s 1).2 = true) : Step s (pop_back s).2.1
  | pop_batch (v : List T) (h : (cons_has_data s 1).2 = true) :
      Step s (pop_back_vec s v).2.1
  | prod_stall (want : Nat) (h : (prod_has_space s want).2 = false) :
      Step s (prod_wait_space_once s want).state
  | cons_stall (want : Nat) (h : (cons_has_data s want).2 = false) :
      Step s (cons_wait_data_once s want).state
  | prod_wake : Step s (prodWake s)
  | cons_wake : Step s (consWake s)

/-- States reachable from a freshly constructed queue of requested
capacity `C` (initial ring contents `f`) under any interleaving of
producer and consumer steps. -/
inductive Reachable {T : Type} (C : Nat) (f : Nat → T) : State T → Prop where
  | init : Reachable C f (initState f C)
  | step {s s' : State T} :
      Reachable C f s → Step s s' → Reachable C f s'

/-- The index-chain invariant: all six `uint64_t` counters are the mod-`2^64`
images of unbounded monotone counters ordered
`prod_ci ≤ __cons_index ≤ cons_ci ≤ cons_pi ≤ __prod_index ≤ prod_pi`
with `prod_pi ≤ prod_ci + C`. -/
def ChainInv {T : Type} (C : Nat) (s : State T) : Prop :=
  ∃ a b c d e p : Nat,
    a ≤ b ∧ b ≤ c ∧ c ≤ d ∧ d ≤ e ∧ e ≤ p ∧ p ≤ a + C ∧
    s.prod_ci = a % M ∧ s.__cons_index = b % M ∧ s.cons_ci = c % M ∧
    s.cons_pi = d % M ∧ s.__prod_index = e % M ∧ s.prod_pi = p % M ∧
    s.queue_capacity = C

/-- Concrete queue state used to exhibit the return value of the batch
`pop_back`: a queue of capacity 4 whose producer has published two items
(the ring holds `100 + i` at slot `i`), consumer side untouched. -/
def batchState : State Nat :=
  { ring_capacity := 4
    queue_capacity := 4
    ring := fun i => 100 + i
    __prod_index := 2
    prod_event := 0
    prod_ci := 0
    prod_pi := 2
    __cons_index := 0
    cons_event := 0
    cons_ci := 0
    cons_pi := 0
    prod_sem := false
    cons_sem := false
    cons_not := 0
    prod_not := 0 }

/-- Concrete queue state with a full ring: capacity 4, four published
unconsumed items.  `prod_has_space(1)` fails here. -/
def fullState : State Nat :=
  { ring_capacity := 4
    queue_capacity := 4
    ring := fun i => 100 + i
    __prod_index := 4
    prod_event := 0
    prod_ci := 0
    prod_pi := 4
    __cons_index := 0
    cons_event := 0
    cons_ci := 0
    cons_pi := 0
    prod_sem := false
    cons_sem := false
    cons_not := 0
    prod_not := 0 }

/-! Per-field description lemmas for the state transformers.  These only
restate which fields each member function writes; all later developments go
through them. -/

@[simp] theorem prod_notify_ring_capacity {T : Type} (s : State T) :
    (prod_notify s).ring_capacity = s.ring_capacity := by
  unfold prod_notify; dsimp only; split <;> rfl

@[simp] theorem prod_notify_queue_capacity {T : Type} (s : State T) :
    (prod_notify s).queue_capacity = s.queue_capacity := by
  unfold prod_notify; dsimp only; split <;> rfl

@[simp] theorem prod_notify_ring {T : Type} (s : State T) :
    (prod_notify s).ring = s.ring := by
  unfold prod_notify; dsimp only; split <;> rfl

@[simp] theorem prod_notify_prod_pi {T : Type} (s : State T) :
    (prod_notify s).prod_pi = s.prod_pi := by
  unfold prod_notify; dsimp only; split <;> rfl

@[simp] theorem prod_notify_prod_ci {T : Type} (s : State T) :
    (prod_notify s).prod_ci = s.prod_ci := by
  unfold prod_notify; dsimp only; split <;> rfl

@[simp] theorem prod_notify_prod_event {T : Type} (s : State T) :
    (prod_notify s).prod_event = s.prod_event := by
  unfold prod_notify; dsimp only; split <;> rfl

@[simp] theorem prod_notify_prod_index {T : Type} (s : State T) :
    (prod_notify s).__prod_index = s.prod_pi := by
  unfold prod_notify; dsimp only; split <;> rfl

@[simp] theorem prod_notify_cons_index {T : Type} (s : State T) :
    (prod_notify s).__cons_index = s.__cons_index := by
  unfold prod_notify; dsimp only; split <;> rfl

@[simp] theorem prod_notify_cons_event {T : Type} (s : State T) :
    (prod_notify s).cons_event = s.cons_event := by
  unfold prod_notify; dsimp only; split <;> rfl

@[simp] theorem prod_notify_cons_ci {T : Type} (s : State T) :
    (prod_notify s).cons_ci = s.cons_ci := by
  unfold prod_notify; dsimp only; split <;> rfl

@[simp] theorem prod_notify_cons_pi {T : Type} (s : State T) :
    (prod_notify s).cons_pi = s.cons_pi := by
  unfold prod_notify; dsimp only; split <;> rfl

@[simp] theorem prod_notify_prod_sem {T : Type} (s : State T) :
    (prod_notify s).prod_sem = s.prod_sem := by
  unfold prod_notify; dsimp only; split <;> rfl

@[simp] theorem prod_notify_cons_not {T : Type} (s : State T) :
    (prod_notify s).cons_not = s.cons_not := by
  unfold prod_notify; dsimp only; split <;> rfl

@[simp] theorem cons_notify_ring_capacity {T : Type} (s : State T) :
    (cons_notify s).ring_capacity = s.ring_capacity := by
  unfold cons_notify; dsimp only; split <;> rfl

@[simp] theorem cons_notify_queue_capacity {T : Type} (s : State T) :
    (cons_notify s).queue_capacity = s.queue_capacity := by
  unfold cons_notify; dsimp only; split <;> rfl

@[simp] theorem cons_notify_ring {T : Type} (s : State T) :
    (cons_notify s).ring = s.ring := by
  unfold cons_notify; dsimp only; split <;> rfl

@[simp] theorem cons_notify_prod_pi {T : Type} (s : State T) :
    (cons_notify s).prod_pi = s.prod_pi := by
  unfold cons_notify; dsimp only; split <;> rfl

@[simp] theorem cons_notify_prod_ci {T : Type} (s : State T) :
    (cons_notify s).prod_ci = s.prod_ci := by
  unfold cons_notify; dsimp only; split <;> rfl

@[simp] theorem cons_notify_prod_event {T : Type} (s : State T) :
    (cons_notify s).prod_event = s.prod_event := by
  unfold cons_notify; dsimp only; split <;> rfl

@[simp] theorem cons_notify_prod_index {T : Type} (s : State T) :
    (cons_notify s).__prod_index = s.__prod_index := by
  unfold cons_notify; dsimp only; split <;> rfl

@[simp] theorem cons_notify_cons_index {T : Type} (s : State T) :
    (cons_notify s).__cons_index = s.cons_ci := by
  unfold cons_notify; dsimp only; split <;> rfl

@[simp] theorem cons_notify_cons_event {T : Type} (s : State T) :
    (cons_notify s).cons_event = s.cons_event := by
  unfold cons_notify; dsimp only; split <;> rfl

@[simp] theorem cons_notify_cons_ci {T : Type} (s : State T) :
    (cons_notify s).cons_ci = s.cons_ci := by
  unfold cons_notify; dsimp only; split <;> rfl

@[simp] theorem cons_notify_cons_pi {T : Type} (s : State T) :
    (cons_notify s).cons_pi = s.cons_pi := by
  unfold cons_notify; dsimp only; split <;> rfl

@[simp] theorem cons_notify_cons_sem {T : Type} (s : State T) :
    (cons_notify s).cons_sem = s.cons_sem := by
  unfold cons_notify; dsimp only; split <;> rfl

@[simp] theorem cons_notify_prod_not {T : Type} (s : State T) :
    (cons_notify s).prod_not = s.prod_not := by
  unfold cons_notify; dsimp only; split <;> rfl

@[simp] theorem cons_advance_ring_capacity {T : Type} (s : State T) (n : Nat) :
    (cons_advance s n).ring_capacity = s.ring_capacity := by
  unfold cons_advance; dsimp only; split <;> simp

@[simp] theorem cons_advance_queue_capacity {T : Type} (s : State T) (n : Nat) :
    (cons_advance s n).queue_capacity = s.queue_capacity := by
  unfold cons_advance; dsimp only; split <;> simp

@[simp] theorem cons_advance_ring {T : Type} (s : State T) (n : Nat) :
    (cons_advance s n).ring = s.ring := by
  unfold cons_advance; dsimp only; split <;> simp

@[simp] theorem cons_advance_prod_pi {T : Type} (s : State T) (n : Nat) :
    (cons_advance s n).prod_pi = s.prod_pi := by
  unfold cons_advance; dsimp only; split <;> simp

@[simp] theorem cons_advance_prod_ci {T : Type} (s : State T) (n : Nat) :
    (cons_advance s n).prod_ci = s.prod_ci := by
  unfold cons_advance; dsimp only; split <;> simp

@[simp] theorem cons_advance_prod_event {T : Type} (s : State T) (n : Nat) :
    (cons_advance s n).prod_event = s.prod_event := by
  unfold cons_advance; dsimp only; split <;> simp

@[simp] theorem cons_advance_prod_index {T : Type} (s : State T) (n : Nat) :
    (cons_advance s n).__prod_index = s.__prod_index := by
  unfold cons_advance; dsimp only; split <;> simp

@[simp] theorem cons_advance_cons_event {T : Type} (s : State T) (n : Nat) :
    (cons_advance s n).cons_event = s.cons_event := by
  unfold cons_advance; dsimp only; split <;> simp

@[simp] theorem cons_advance_cons_ci {T : Type} (s : State T) (n : Nat) :
    (cons_advance s n).cons_ci = uadd s.cons_ci n := by
  unfold cons_advance; dsimp only; split <;> simp

@[simp] theorem cons_advance_cons_pi {T : Type} (s : State T) (n : Nat) :
    (cons_advance s n).cons_pi = s.cons_pi := by
  unfold cons_advance; dsimp only; split <;> simp

@[simp] theorem cons_advance_cons_sem {T : Type} (s : State T) (n : Nat) :
    (cons_advance s n).cons_sem = s.cons_sem := by
  unfold cons_advance; dsimp only; split <;> simp

@[simp] theorem cons_advance_prod_not {T : Type} (s : State T) (n : Nat) :
    (cons_advance s n).prod_not = s.prod_not := by
  unfold cons_advance; dsimp only; split <;> simp

@[simp] theorem prod_advance_ring_capacity {T : Type} (s : State T) (n : Nat) (force : Bool) :
    (prod_advance s n force).ring_capacity = s.ring_capacity := by
  unfold prod_advance; dsimp only; split <;> simp

@[simp] theorem prod_advance_queue_capacity {T : Type} (s : State T) (n : Nat) (force : Bool) :
    (prod_advance s n force).queue_capacity = s.queue_capacity := by
  unfold prod_advance; dsimp only; split <;> simp

@[simp] theorem prod_advance_ring {T : Type} (s : State T) (n : Nat) (force : Bool) :
    (prod_advance s n force).ring = s.ring := by
  unfold prod_advance; dsimp only; split <;> simp

@[simp] theorem prod_advance_prod_pi {T : Type} (s : State T) (n : Nat) (force : Bool) :
    (prod_advance s n force).prod_pi = uadd s.prod_pi n := by
  unfold prod_advance; dsimp only; split <;> simp

@[simp] theorem prod_advance_prod_ci {T : Type} (s : State T) (n : Nat) (force : Bool) :
    (prod_advance s n force).prod_ci = s.prod_ci := by
  unfold prod_advance; dsimp only; split <;> simp

@[simp] theorem prod_advance_prod_event {T : Type} (s : State T) (n : Nat) (force : Bool) :
    (prod_advance s n force).prod_event = s.prod_event := by
  unfold prod_advance; dsimp only; split <;> simp

@[simp] theorem prod_advance_cons_index {T : Type} (s : State T) (n : Nat) (force : Bool) :
    (prod_advance s n force).__cons_index = s.__cons_index := by
  unfold prod_advance; dsimp only; split <;> simp

@[simp] theorem prod_advance_cons_event {T : Type} (s : State T) (n : Nat) (force : Bool) :
    (prod_advance s n force).cons_event = s.cons_event := by
  unfold prod_advance; dsimp only; split <;> simp

@[simp] theorem prod_advance_cons_ci {T : Type} (s : State T) (n : Nat) (force : Bool) :
    (prod_advance s n force).cons_ci = s.cons_ci := by
  unfold prod_advance; dsimp only; split <;> simp

@[simp] theorem prod_advance_cons_pi {T : Type} (s : State T) (n : Nat) (force : Bool) :
    (prod_advance s n force).cons_pi = s.cons_pi := by
  unfold prod_advance; dsimp only; split <;> simp

@[simp] theorem prod_advance_prod_sem {T : Type} (s : State T) (n : Nat) (force : Bool) :
    (prod_advance s n force).prod_sem = s.prod_sem := by
  unfold prod_advance; dsimp only; split <;> simp

@[simp] theorem prod_advance_cons_not {T : Type} (s : State T) (n : Nat) (force : Bool) :
    (prod_advance s n force).cons_not = s.cons_not := by
  unfold prod_advance; dsimp only; split <;> simp

/-! ## C1: wrap-safe threshold-crossing test -/

theorem cons_notify_prod_sem {T : Type} (s : State T) :
    (cons_notify s).prod_sem =
      (s.prod_sem || crossedTest s.__cons_index s.cons_ci s.prod_event) := by
  unfold cons_notify crossedTest
  dsimp only
  split
  next h => simp [h]
  next h => simp [h]

theorem prod_notify_cons_sem {T : Type} (s : State T) :
    (prod_notify s).cons_sem =
      (s.cons_sem || crossedTest s.__prod_index s.prod_pi s.cons_event) := by
  unfold prod_notify crossedTest
  dsimp only
  split
  next h => simp [h]
  next h => simp [h]

/-- C1.  Wrap-safe threshold-crossing test: for 64-bit indices `old`,
`neu`, `t` with `neu - old ≤ 2^63`, the test
`unsigned(neu - t - 1) < unsigned(neu - old)` used by `cons_notify`
(with `neu = cons_ci`, `t = prod_event`, `old` the previously published
`__cons_index`) and symmetrically by `prod_notify` holds iff `t` lies in
the half-open interval `(old - 1, neu - 1]` modulo `2^64` (expressed via
the modular distance of `t` from `old - 1`); in particular `t = neu - 1`
counts as crossed (whenever the advance is non-empty) and `t = old - 1`
does not; and each notify function signals its counterpart semaphore
exactly when the test holds (the semaphore being a latch, an
already-pending signal stays set). -/
theorem c1_threshold_crossing (old neu t : Nat)
    (hold : old < M) (hneu : neu < M) (ht : t < M)
    (hadv : usub neu old ≤ 2 ^ 63) :
    (crossedTest old neu t = true ↔
      1 ≤ usub t (usub old 1) ∧ usub t (usub old 1) ≤ usub neu old)
    ∧ (1 ≤ usub neu old → crossedTest old neu (usub neu 1) = true)
    ∧ crossedTest old neu (usub old 1) = false
    ∧ (∀ (T : Type) (s : State T),
        (cons_notify s).prod_sem =
          (s.prod_sem || crossedTest s.__cons_index s.cons_ci s.prod_event)
        ∧ (prod_notify s).cons_sem =
          (s.cons_sem || crossedTest s.__prod_index s.prod_pi s.cons_event)) := by
  refine ⟨?_, ?_, ?_, fun T s => ⟨cons_notify_prod_sem s, prod_notify_cons_sem s⟩⟩
  · unfold crossedTest usub M at *
    simp only [decide_eq_true_eq]
    omega
  · unfold crossedTest usub M at *
    simp only [decide_eq_true_eq]
    omega
  · unfold crossedTest usub M at *
    simp only [decide_eq_false_iff_not]
    omega

/-- Witness for C1 at `old = 5`, `neu = 7`, `t = 6`: the advance `5 → 7`
crossed the threshold `6`. -/
theorem c1_threshold_crossing_witness :
    usub 7 5 ≤ 2 ^ 63 ∧ crossedTest 5 7 6 = true :=
  ⟨by decide,
   ((c1_threshold_crossing 5 7 6 (by decide) (by decide) (by decide)
      (by decide)).1).mpr (by decide)⟩

/-! ## C4: construction with capacity 0 -/

/-- C4 (evidence of the code bug).  The constructor performs no
zero-capacity check: its only validation is the debug assertion
`assert(ring_capacity <= max_size)`.  For `max_capacity = 0` the
ring-size expression is undefined behavior in C++ (cast of `-inf`); on
mainstream platforms it yields `ring_capacity = 1` (see `ringCapacity`),
the assertion passes, and a queue object with `queue_capacity = 0` is
produced — no invalid-argument condition arises.  The resulting object is
broken: `queue_capacity - want` wraps, so `prod_has_space(1)` is already
true on the empty queue and one completed push drives the occupancy
`P - Q` to `1 > 0 = C`. -/
theorem c4_zero_capacity_not_rejected :
    construct 0 = some (1, 0)
    ∧ (initState (fun _ => (0 : Nat)) 0).queue_capacity = 0
    ∧ (prod_has_space (initState (fun _ => (0 : Nat)) 0) 1).2 = true
    ∧ usub ((push_front (initState (fun _ => (0 : Nat)) 0) 7 true).2.prod_pi)
        ((push_front (initState (fun _ => (0 : Nat)) 0) 7 true).2.cons_ci) = 1 := by
  have hrc : ringCapacity 0 = 1 := by
    have htd : toDouble 0 = 0 := by
      unfold toDouble
      rw [if_pos (by norm_num)]
    rw [ringCapacity, htd, Nat.clog_zero_right]
    rfl
  refine ⟨?_, rfl, by decide, ?_⟩
  · unfold construct
    rw [hrc, if_pos (by norm_num [maxSize])]
  have h1 : ((push_front (initState (fun _ => (0 : Nat)) 0) 7 true).2.prod_pi) = 1 := by
    simp [push_front, prod_has_space, initState, uadd, M]
  have h2 : ((push_front (initState (fun _ => (0 : Nat)) 0) 7 true).2.cons_ci) = 0 := by
    simp [push_front, prod_has_space, initState]
  rw [h1, h2]
  decide

/-! ## C5: ring sizing -/

theorem toDouble_of_lt {n : Nat} (h : n < 2 ^ 53) : toDouble n = n := by
  unfold toDouble
  rw [if_pos h]

theorem toDouble_pow54_succ : toDouble (2 ^ 54 + 1) = 2 ^ 54 := by
  have hlog : Nat.log 2 (2 ^ 54 + 1) = 54 :=
    Nat.log_eq_of_pow_le_of_lt_pow (by norm_num) (by norm_num)
  unfold toDouble
  rw [if_neg (by norm_num)]
  dsimp only
  rw [hlog]
  norm_num

theorem ringCapacity_eq (c : Nat) :
    ringCapacity c = 1 <<< Nat.clog 2 (toDouble c) := rfl

theorem ringCapacity_pow54_succ : ringCapacity (2 ^ 54 + 1) = 2 ^ 54 := by
  have h1 : Nat.clog 2 (toDouble (2 ^ 54 + 1)) = 54 := by
    rw [toDouble_pow54_succ]
    exact Nat.clog_pow 2 54 (by norm_num)
  have h2 : 1 <<< Nat.clog 2 (toDouble (2 ^ 54 + 1)) = 2 ^ 54 := by
    rw [h1]
    exact Nat.one_shiftLeft 54
  rw [ringCapacity_eq]
  exact h2

/-- Counterexample to C5 as stated: at requested capacity `c = 2^54 + 1`
(inside the claimed domain `1 ≤ c ≤ 2^63`) the `size_t → double`
conversion rounds `c` to the nearest representable `2^54` (no tie), the
platform `log2` of the exact power `2^54` is exactly `54`, and the
constructor allocates a ring of `2^54` slots — strictly smaller than the
logical capacity, refuting both `c ≤ N` and the minimality of `N` on the
claimed domain. -/
theorem c5_ring_undersized :
    1 ≤ 2 ^ 54 + 1
    ∧ (2 : Nat) ^ 54 + 1 ≤ 2 ^ 63
    ∧ ringCapacity (2 ^ 54 + 1) = 2 ^ 54
    ∧ ringCapacity (2 ^ 54 + 1) < 2 ^ 54 + 1 := by
  refine ⟨by norm_num, by norm_num, ringCapacity_pow54_succ, ?_⟩
  rw [ringCapacity_pow54_succ]
  norm_num

/-- C5 (amended).  For every requested capacity `1 ≤ c ≤ 2^48` — where
the `size_t → double` conversion is exact and `ceil(log2 c)` is computed
correctly by any faithfully rounded `log2` — the constructor's ring size
is `2^clog2(c)`, a power of two, at least `c`, and the smallest power of
two `≥ c`; the assertion passes (`construct` succeeds), the logical
capacity stays `c`, and every slot access maps counter `i` to array
position `i & (N - 1) = i mod N`.  For larger `c` the double rounding can
undersize the ring (deterministically for `c > 2^53`, see the
counterexample at `c = 2^54 + 1`). -/
theorem c5_ring_sizing {T : Type} (f : Nat → T) (c : Nat)
    (h1 : 1 ≤ c) (h2 : c ≤ 2 ^ 48) :
    ringCapacity c = 2 ^ Nat.clog 2 c
    ∧ c ≤ ringCapacity c
    ∧ (∀ m : Nat, c ≤ 2 ^ m → ringCapacity c ≤ 2 ^ m)
    ∧ construct c = some (ringCapacity c, c)
    ∧ (initState f c).queue_capacity = c
    ∧ (initState f c).ring_capacity = ringCapacity c
    ∧ ∀ i : Nat, normalize_index (initState f c) i = i % ringCapacity c := by
  have hpow : ringCapacity c = 2 ^ Nat.clog 2 c := by
    rw [ringCapacity, toDouble_of_lt (lt_of_le_of_lt h2 (by norm_num)),
      Nat.one_shiftLeft]
  have hmax : ringCapacity c ≤ maxSize := by
    rw [hpow, maxSize]
    exact Nat.pow_le_pow_right (by norm_num)
      ((Nat.le_pow_iff_clog_le (by norm_num)).mp
        (le_trans h2 (by norm_num)))
  refine ⟨hpow, ?_, ?_, ?_, rfl, rfl, ?_⟩
  · rw [hpow]
    exact Nat.le_pow_clog (by norm_num) c
  · intro m hm
    rw [hpow]
    exact Nat.pow_le_pow_right (by norm_num)
      ((Nat.le_pow_iff_clog_le (by norm_num)).mp hm)
  · unfold construct
    rw [if_pos hmax]
  · intro i
    unfold normalize_index initState
    dsimp only
    rw [hpow]
    exact Nat.and_pow_two_sub_one_eq_mod i _

/-- Witness for C5 at `c = 5`: the ring is rounded up to at least 5
slots. -/
theorem c5_ring_sizing_witness :
    1 ≤ 5 ∧ 5 ≤ ringCapacity 5 :=
  ⟨by decide,
   (c5_ring_sizing (fun _ => (0 : Nat)) 5 (by decide) (by norm_num)).2.1⟩

/-! Helper lemmas about the composite operations. -/

theorem prod_has_space_snd {T : Type} (s : State T) (want : Nat) :
    (prod_has_space s want).2 =
      decide (usub s.prod_pi s.__cons_index ≤ usub s.queue_capacity want) := rfl

theorem cons_has_data_snd {T : Type} (s : State T) (want : Nat) :
    (cons_has_data s want).2 =
      decide (want ≤ usub s.__prod_index s.cons_ci) := rfl

@[simp] theorem push_front_fst {T : Type} (s : State T) (x : T) (force : Bool) :
    (push_front s x force).1 = true := rfl

@[simp] theorem push_front_prod_pi {T : Type} (s : State T) (x : T) (force : Bool) :
    (push_front s x force).2.prod_pi = uadd s.prod_pi 1 := by
  simp [push_front, prod_has_space]

@[simp] theorem push_front_prod_ci {T : Type} (s : State T) (x : T) (force : Bool) :
    (push_front s x force).2.prod_ci = s.__cons_index := by
  simp [push_front, prod_has_space]

@[simp] theorem push_front_prod_event {T : Type} (s : State T) (x : T) (force : Bool) :
    (push_front s x force).2.prod_event = s.prod_event := by
  simp [push_front, prod_has_space]

@[simp] theorem push_front_cons_index {T : Type} (s : State T) (x : T) (force : Bool) :
    (push_front s x force).2.__cons_index = s.__cons_index := by
  simp [push_front, prod_has_space]

@[simp] theorem push_front_cons_event {T : Type} (s : State T) (x : T) (force : Bool) :
    (push_front s x force).2.cons_event = s.cons_event := by
  simp [push_front, prod_has_space]

@[simp] theorem push_front_cons_ci {T : Type} (s : State T) (x : T) (force : Bool) :
    (push_front s x force).2.cons_ci = s.cons_ci := by
  simp [push_front, prod_has_space]

@[simp] theorem push_front_cons_pi {T : Type} (s : State T) (x : T) (force : Bool) :
    (push_front s x force).2.cons_pi = s.cons_pi := by
  simp [push_front, prod_has_space]

@[simp] theorem push_front_prod_sem {T : Type} (s : State T) (x : T) (force : Bool) :
    (push_front s x force).2.prod_sem = s.prod_sem := by
  simp [push_front, prod_has_space]

@[simp] theorem push_front_cons_not {T : Type} (s : State T) (x : T) (force : Bool) :
    (push_front s x force).2.cons_not = s.cons_not := by
  simp [push_front, prod_has_space]

@[simp] theorem push_front_queue_capacity {T : Type} (s : State T) (x : T) (force : Bool) :
    (push_front s x force).2.queue_capacity = s.queue_capacity := by
  simp [push_front, prod_has_space]

@[simp] theorem push_front_ring_capacity {T : Type} (s : State T) (x : T) (force : Bool) :
    (push_front s x force).2.ring_capacity = s.ring_capacity := by
  simp [push_front, prod_has_space]

@[simp] theorem push_front_ring {T : Type} (s : State T) (x : T) (force : Bool) :
    (push_front s x force).2.ring =
      Function.update s.ring (normalize_index s s.prod_pi) x := by
  simp [push_front, prod_has_space, normalize_index]

@[simp] theorem push_front_false_prod_index {T : Type} (s : State T) (x : T) :
    (push_front s x false).2.__prod_index = s.__prod_index := by
  simp [push_front, prod_has_space, prod_advance]

@[simp] theorem push_front_true_prod_index {T : Type} (s : State T) (x : T) :
    (push_front s x true).2.__prod_index = uadd s.prod_pi 1 := by
  simp [push_front, prod_has_space, prod_advance]

@[simp] theorem push_front_false_cons_sem {T : Type} (s : State T) (x : T) :
    (push_front s x false).2.cons_sem = s.cons_sem := by
  simp [push_front, prod_has_space, prod_advance]

@[simp] theorem push_front_false_prod_not {T : Type} (s : State T) (x : T) :
    (push_front s x false).2.prod_not = s.prod_not := by
  simp [push_front, prod_has_space, prod_advance]

theorem push_front_true_cons_sem {T : Type} (s : State T) (x : T) :
    (push_front s x true).2.cons_sem =
      (s.cons_sem || crossedTest s.__prod_index (uadd s.prod_pi 1) s.cons_event) := by
  unfold push_front
  dsimp only
  rw [show ∀ u : State T, prod_advance u 1 true = prod_notify { u with prod_pi := uadd u.prod_pi 1 } from fun u => by unfold prod_advance; dsimp only; rw [if_pos rfl]]
  rw [prod_notify_cons_sem]
  simp [prod_has_space]

@[simp] theorem pop_back_fst {T : Type} (s : State T) :
    (pop_back s).1 = true := rfl

@[simp] theorem pop_back_item {T : Type} (s : State T) :
    (pop_back s).2.2 = s.ring (normalize_index s s.cons_ci) := by
  simp [pop_back, cons_has_data, normalize_index]

@[simp] theorem pop_back_cons_ci {T : Type} (s : State T) :
    (pop_back s).2.1.cons_ci = uadd s.cons_ci 1 := by
  simp [pop_back, cons_has_data]

@[simp] theorem pop_back_cons_pi {T : Type} (s : State T) :
    (pop_back s).2.1.cons_pi = s.__prod_index := by
  simp [pop_back, cons_has_data]

@[simp] theorem pop_back_prod_pi {T : Type} (s : State T) :
    (pop_back s).2.1.prod_pi = s.prod_pi := by
  simp [pop_back, cons_has_data]

@[simp] theorem pop_back_prod_index {T : Type} (s : State T) :
    (pop_back s).2.1.__prod_index = s.__prod_index := by
  simp [pop_back, cons_has_data]

@[simp] theorem pop_back_prod_ci {T : Type} (s : State T) :
    (pop_back s).2.1.prod_ci = s.prod_ci := by
  simp [pop_back, cons_has_data]

@[simp] theorem pop_back_prod_event {T : Type} (s : State T) :
    (pop_back s).2.1.prod_event = s.prod_event := by
  simp [pop_back, cons_has_data]

@[simp] theorem pop_back_cons_event {T : Type} (s : State T) :
    (pop_back s).2.1.cons_event = s.cons_event := by
  simp [pop_back, cons_has_data]

@[simp] theorem pop_back_ring {T : Type} (s : State T) :
    (pop_back s).2.1.ring = s.ring := by
  simp [pop_back, cons_has_data]

@[simp] theorem pop_back_ring_capacity {T : Type} (s : State T) :
    (pop_back s).2.1.ring_capacity = s.ring_capacity := by
  simp [pop_back, cons_has_data]

@[simp] theorem pop_back_queue_capacity {T : Type} (s : State T) :
    (pop_back s).2.1.queue_capacity = s.queue_capacity := by
  simp [pop_back, cons_has_data]

@[simp] theorem pop_back_vec_fst {T : Type} (s : State T) (v : List T) :
    (pop_back_vec s v).1 = true := rfl

@[simp] theorem pop_back_vec_cons_ci {T : Type} (s : State T) (v : List T) :
    (pop_back_vec s v).2.1.cons_ci =
      uadd s.cons_ci (usub s.__prod_index s.cons_ci) := by
  simp [pop_back_vec, cons_has_data]

@[simp] theorem pop_back_vec_cons_pi {T : Type} (s : State T) (v : List T) :
    (pop_back_vec s v).2.1.cons_pi = s.__prod_index := by
  simp [pop_back_vec, cons_has_data]

@[simp] theorem pop_back_vec_prod_pi {T : Type} (s : State T) (v : List T) :
    (pop_back_vec s v).2.1.prod_pi = s.prod_pi := by
  simp [pop_back_vec, cons_has_data]

@[simp] theorem pop_back_vec_prod_index {T : Type} (s : State T) (v : List T) :
    (pop_back_vec s v).2.1.__prod_index = s.__prod_index := by
  simp [pop_back_vec, cons_has_data]

@[simp] theorem pop_back_vec_ring {T : Type} (s : State T) (v : List T) :
    (pop_back_vec s v).2.1.ring = s.ring := by
  simp [pop_back_vec, cons_has_data]

@[simp] theorem pop_back_vec_prod_ci {T : Type} (s : State T) (v : List T) :
    (pop_back_vec s v).2.1.prod_ci = s.prod_ci := by
  simp [pop_back_vec, cons_has_data]

@[simp] theorem pop_back_vec_prod_event {T : Type} (s : State T) (v : List T) :
    (pop_back_vec s v).2.1.prod_event = s.prod_event := by
  simp [pop_back_vec, cons_has_data]

@[simp] theorem pop_back_vec_cons_event {T : Type} (s : State T) (v : List T) :
    (pop_back_vec s v).2.1.cons_event = s.cons_event := by
  simp [pop_back_vec, cons_has_data]

@[simp] theorem pop_back_vec_queue_capacity {T : Type} (s : State T) (v : List T) :
    (pop_back_vec s v).2.1.queue_capacity = s.queue_capacity := by
  simp [pop_back_vec, cons_has_data]

@[simp] theorem pop_back_vec_ring_capacity {T : Type} (s : State T) (v : List T) :
    (pop_back_vec s v).2.1.ring_capacity = s.ring_capacity := by
  simp [pop_back_vec, cons_has_data]

theorem pop_back_cons_index_cases {T : Type} (s : State T) :
    (pop_back s).2.1.__cons_index = s.__cons_index ∨
    (pop_back s).2.1.__cons_index = uadd s.cons_ci 1 := by
  unfold pop_back cons_advance
  dsimp only
  split
  · right; simp [cons_has_data]
  · left; simp [cons_has_data]

theorem pop_back_vec_cons_index_cases {T : Type} (s : State T) (v : List T) :
    (pop_back_vec s v).2.1.__cons_index = s.__cons_index ∨
    (pop_back_vec s v).2.1.__cons_index =
      uadd s.cons_ci (usub s.__prod_index s.cons_ci) := by
  unfold pop_back_vec cons_advance
  dsimp only
  split
  · right; simp [cons_has_data]
  · left; simp [cons_has_data]

theorem foldl_append_singleton {α β : Type} (g : β → α) :
    ∀ (l : List β) (acc : List α),
      l.foldl (fun cAcc i => cAcc ++ [g i]) acc = acc ++ l.map g := by
  intro l
  induction l with
  | nil => intro acc; simp
  | cons y ys ih =>
    intro acc
    simp only [List.foldl_cons, List.map_cons, ih]
    simp

/-- The batch pop builds `container ++ avail s`. -/
theorem pop_back_vec_container {T : Type} (s : State T) (v : List T) :
    (pop_back_vec s v).2.2 = v ++ avail s := by
  unfold pop_back_vec avail
  dsimp only
  rw [foldl_append_singleton]
  simp [cons_has_data, normalize_index]

/-! ## C10: batch pop appends after pre-existing contents -/

/-- C10.  The container form `pop_back(std::vector<T>*)` appends the
popped elements after any pre-existing contents of the caller's
container: for every container `v` and state `s`, the resulting container
is `v` followed by the currently available sequence `avail s`; the prior
contents are never cleared, overwritten or reordered. -/
theorem c10_batch_pop_appends_after_prior {T : Type} (s : State T) (v : List T) :
    (pop_back_vec s v).2.2 = v ++ avail s
    ∧ (pop_back_vec s v).2.2.take v.length = v := by
  refine ⟨pop_back_vec_container s v, ?_⟩
  rw [pop_back_vec_container s v]
  simp

/-! ## C7: batch pop -/

/-- Counterexample to C7 as stated: the batch `pop_back` does not return
the count of removed elements — it returns the Boolean `true`.  At
`batchState` (two elements available) the call removes 2 elements but the
returned value, read as a number, is `1 ≠ 2`. -/
theorem c7_count_not_returned :
    (pop_back_vec batchState []).2.2.length = 2
    ∧ (pop_back_vec batchState []).1 = true
    ∧ ((pop_back_vec batchState []).1).toNat ≠
        (pop_back_vec batchState []).2.2.length := by
  refine ⟨?_, rfl, ?_⟩
  · rw [pop_back_vec_container]
    simp [avail, batchState]
    decide
  · rw [pop_back_vec_container]
    simp [avail, batchState]
    decide

/-- C7 (amended).  The batch `pop_back` removes from the queue all
elements currently available to the consumer (at least one, given that
its `cons_has_data(1)` check holds, which is the condition under which
`cons_wait_data(1)` returns), appends them to the output container in
queue order, advances the consumer index by that number — but returns the
Boolean `true`, not the count. -/
theorem c7_batch_pop {T : Type} (s : State T) (v : List T)
    (h : (cons_has_data s 1).2 = true) :
    (pop_back_vec s v).1 = true
    ∧ 1 ≤ (avail s).length
    ∧ (avail s).length = usub s.__prod_index s.cons_ci
    ∧ (pop_back_vec s v).2.2 = v ++ avail s
    ∧ (pop_back_vec s v).2.1.cons_ci =
        uadd s.cons_ci (usub s.__prod_index s.cons_ci) := by
  rw [cons_has_data_snd, decide_eq_true_eq] at h
  refine ⟨rfl, ?_, ?_, pop_back_vec_container s v, by simp⟩
  · simpa [avail] using h
  · simp [avail]

/-- Witness for C7 (amended) at `batchState` with prior contents `[7]`. -/
theorem c7_batch_pop_witness :
    (cons_has_data batchState 1).2 = true
    ∧ (pop_back_vec batchState [7]).2.2 = [7] ++ avail batchState :=
  ⟨by decide, (c7_batch_pop batchState [7] (by decide)).2.2.2.1⟩

/-! ## C6: push and pop never fail -/

/-- C6.  Once they complete (their space/data check holds, the condition
under which the wait loops return), `push_front` (either `force` value)
and both forms of `pop_back` return `true` unconditionally — there is no
failure path.  Moreover a push with `force = false` neither fails nor
drops the item: the item is stored in its ring slot and the private
producer index advances. -/
theorem c6_ops_never_fail {T : Type} (sa sb sc : State T) (x : T)
    (force : Bool) (v : List T)
    (ha : (prod_has_space sa 1).2 = true)
    (hb : (cons_has_data sb 1).2 = true)
    (hc : (cons_has_data sc 1).2 = true) :
    (push_front sa x force).1 = true
    ∧ (pop_back sb).1 = true
    ∧ (pop_back_vec sc v).1 = true
    ∧ (push_front sa x false).2.ring (normalize_index sa sa.prod_pi) = x
    ∧ (push_front sa x false).2.prod_pi = uadd sa.prod_pi 1 := by
  refine ⟨rfl, rfl, rfl, ?_, by simp⟩
  simp

/-- Witness for C6 at `batchState` (which has both free space and
available data). -/
theorem c6_ops_never_fail_witness :
    (prod_has_space batchState 1).2 = true
    ∧ (push_front batchState 5 false).1 = true :=
  ⟨by decide,
   (c6_ops_never_fail batchState batchState batchState 5 false []
      (by decide) (by decide) (by decide)).1⟩

/-! ## C9: deferred publication frame property -/

/-- C9.  A completed push with `force = false` (its `prod_has_space(1)`
check holds, so no wait was needed) increments only the producer's
private index `prod_pi` and writes the destination slot (the
producer-private shadow `prod_ci` is also refreshed by the space check);
the shared published index `__prod_index`, the producer event, all four
consumer-side fields, both semaphore latches and both signal counters are
left unchanged — the item is invisible to the consumer until somebody
runs `prod_notify`.  A push with `force = true` additionally publishes
the new `prod_pi` to `__prod_index` and runs the producer notify check,
signalling the consumer semaphore exactly when the consumer's event
threshold was crossed. -/
theorem c9_deferred_publication {T : Type} (s : State T) (x : T)
    (h : (prod_has_space s 1).2 = true) :
    ((push_front s x false).2.prod_pi = uadd s.prod_pi 1
     ∧ (push_front s x false).2.ring (normalize_index s s.prod_pi) = x
     ∧ (∀ j, j ≠ normalize_index s s.prod_pi →
         (push_front s x false).2.ring j = s.ring j)
     ∧ (push_front s x false).2.__prod_index = s.__prod_index
     ∧ (push_front s x false).2.prod_event = s.prod_event
     ∧ (push_front s x false).2.__cons_index = s.__cons_index
     ∧ (push_front s x false).2.cons_event = s.cons_event
     ∧ (push_front s x false).2.cons_ci = s.cons_ci
     ∧ (push_front s x false).2.cons_pi = s.cons_pi
     ∧ (push_front s x false).2.prod_sem = s.prod_sem
     ∧ (push_front s x false).2.cons_sem = s.cons_sem
     ∧ (push_front s x false).2.cons_not = s.cons_not
     ∧ (push_front s x false).2.prod_not = s.prod_not)
    ∧ ((push_front s x true).2.prod_pi = uadd s.prod_pi 1
       ∧ (push_front s x true).2.__prod_index = uadd s.prod_pi 1
       ∧ (push_front s x true).2.cons_sem =
           (s.cons_sem ||
             crossedTest s.__prod_index (uadd s.prod_pi 1) s.cons_event)) := by
  refine ⟨⟨by simp, by simp, ?_, by simp, by simp, by simp, by simp, by simp,
    by simp, by simp, by simp, by simp, by simp⟩,
    by simp, by simp, push_front_true_cons_sem s x⟩
  intro j hj
  simp only [push_front_ring]
  exact Function.update_noteq hj x s.ring

/-- Witness for C9 at `batchState`. -/
theorem c9_deferred_publication_witness :
    (prod_has_space batchState 1).2 = true
    ∧ (push_front batchState 5 false).2.__prod_index =
        batchState.__prod_index :=
  ⟨by decide,
   (c9_deferred_publication batchState 5 (by decide)).1.2.2.2.1⟩

/-! ## C8: producer hysteresis threshold -/

/-- When the initial `prod_has_space(want)` check of a `prod_wait_space`
iteration fails, the iteration publishes
`prod_event = prod_ci + (prod_pi - prod_ci)/4` (with `prod_ci` the
just-refreshed shadow of `__cons_index`), runs `prod_notify` (publishing
`prod_pi` to `__prod_index`), re-checks, and — nothing else having moved
in this sequential step — parks.  Field-by-field characterization of the
parked state. -/
theorem prod_wait_space_once_stall {T : Type} (s : State T) (want : Nat)
    (h : (prod_has_space s want).2 = false) :
    ∃ s4, prod_wait_space_once s want = .park s4
      ∧ s4.prod_event = uadd s.__cons_index (usub s.prod_pi s.__cons_index / 4)
      ∧ s4.prod_ci = s.__cons_index
      ∧ s4.prod_pi = s.prod_pi
      ∧ s4.__prod_index = s.prod_pi
      ∧ s4.__cons_index = s.__cons_index
      ∧ s4.cons_ci = s.cons_ci
      ∧ s4.cons_pi = s.cons_pi
      ∧ s4.cons_event = s.cons_event
      ∧ s4.queue_capacity = s.queue_capacity
      ∧ s4.ring_capacity = s.ring_capacity
      ∧ s4.ring = s.ring
      ∧ s4.prod_sem = s.prod_sem := by
  rw [prod_has_space_snd, decide_eq_false_iff_not] at h
  unfold prod_wait_space_once
  dsimp only
  split
  next hc =>
    rw [prod_has_space_snd, decide_eq_true_eq] at hc
    exact absurd hc h
  next =>
    split
    next hc =>
      rw [prod_has_space_snd, decide_eq_true_eq] at hc
      simp only [prod_notify_prod_pi, prod_notify_cons_index,
        prod_notify_queue_capacity] at hc
      simp only [prod_has_space] at hc
      exact absurd hc h
    next =>
      refine ⟨_, rfl, ?_, ?_, ?_, ?_, ?_, ?_, ?_, ?_, ?_, ?_, ?_, ?_⟩
      all_goals simp [prod_has_space]

/-- When the initial `cons_has_data(want)` check of a `cons_wait_data`
iteration fails, the iteration sleeps, re-checks, publishes
`cons_event = cons_ci + want - 1`, runs `cons_notify` (publishing
`cons_ci` to `__cons_index`), re-checks, and — nothing else having moved
in this sequential step — parks.  Field-by-field characterization of the
parked state. -/
theorem cons_wait_data_once_stall {T : Type} (s : State T) (want : Nat)
    (h : (cons_has_data s want).2 = false) :
    ∃ s5, cons_wait_data_once s want = .park s5
      ∧ s5.cons_pi = s.__prod_index
      ∧ s5.cons_ci = s.cons_ci
      ∧ s5.__cons_index = s.cons_ci
      ∧ s5.cons_event = usub (uadd s.cons_ci want) 1
      ∧ s5.prod_pi = s.prod_pi
      ∧ s5.prod_ci = s.prod_ci
      ∧ s5.__prod_index = s.__prod_index
      ∧ s5.prod_event = s.prod_event
      ∧ s5.queue_capacity = s.queue_capacity
      ∧ s5.ring_capacity = s.ring_capacity
      ∧ s5.ring = s.ring
      ∧ s5.cons_sem = s.cons_sem := by
  rw [cons_has_data_snd, decide_eq_false_iff_not] at h
  unfold cons_wait_data_once
  dsimp only
  split
  next hc =>
    rw [cons_has_data_snd, decide_eq_true_eq] at hc
    exact absurd hc h
  next =>
    split
    next hc =>
      rw [cons_has_data_snd, decide_eq_true_eq] at hc
      simp only [cons_has_data] at hc
      exact absurd hc h
    next =>
      split
      next hc =>
        rw [cons_has_data_snd, decide_eq_true_eq] at hc
        simp only [cons_notify_prod_index, cons_notify_cons_ci] at hc
        simp only [cons_has_data] at hc
        exact absurd hc h
      next =>
        refine ⟨_, rfl, ?_, ?_, ?_, ?_, ?_, ?_, ?_, ?_, ?_, ?_, ?_, ?_⟩
        all_goals simp [cons_has_data]

/-- C8.  Whenever a `prod_wait_space(want)` iteration finds insufficient
space, it publishes the producer event threshold
`prod_event = Q + (P - Q)/4` computed from the just-refreshed shadow
copies (`Q = __cons_index` at the refresh, `P = prod_pi`), runs
`prod_notify` (so `__prod_index = prod_pi` is published), and re-checks
occupancy before parking on the producer semaphore (in this sequential
step nothing has moved, so the re-check still fails and the iteration
parks); on wake it consumes the semaphore latch and reloads
`prod_ci` from the shared consumer index before restarting. -/
theorem c8_producer_hysteresis {T : Type} (s : State T) (want : Nat)
    (h : (prod_has_space s want).2 = false) :
    ∃ s4, prod_wait_space_once s want = .park s4
      ∧ s4.prod_event = uadd s.__cons_index (usub s.prod_pi s.__cons_index / 4)
      ∧ s4.prod_ci = s.__cons_index
      ∧ s4.__prod_index = s.prod_pi
      ∧ (prod_has_space s4 want).2 = false
      ∧ (prodWake s4).prod_ci = s4.__cons_index
      ∧ (prodWake s4).prod_sem = false := by
  obtain ⟨s4, hpark, hev, hci, hpi, hidx, hcons, hcc, hcp, hce, hqc, hrc, hr, hsem⟩ :=
    prod_wait_space_once_stall s want h
  refine ⟨s4, hpark, hev, hci, hidx, ?_, rfl, rfl⟩
  rw [prod_has_space_snd, hpi, hcons, hqc]
  rw [prod_has_space_snd] at h
  exact h

/-- Witness for C8 at the full queue `fullState`. -/
theorem c8_producer_hysteresis_witness :
    (prod_has_space fullState 1).2 = false
    ∧ ∃ s4, prod_wait_space_once fullState 1 = .park s4
      ∧ s4.prod_event =
          uadd fullState.__cons_index
            (usub fullState.prod_pi fullState.__cons_index / 4)
      ∧ s4.prod_ci = fullState.__cons_index
      ∧ s4.__prod_index = fullState.prod_pi
      ∧ (prod_has_space s4 1).2 = false
      ∧ (prodWake s4).prod_ci = s4.__cons_index
      ∧ (prodWake s4).prod_sem = false :=
  ⟨by decide, c8_producer_hysteresis fullState 1 (by decide)⟩

/-! ## C2: occupancy invariant -/

theorem usub_mod_mod {x y : Nat} (h1 : y ≤ x) (h2 : x - y < M) :
    usub (x % M) (y % M) = x - y := by
  unfold usub M at *
  omega

theorem uadd_mod {x k : Nat} : uadd (x % M) k = (x + k) % M := by
  unfold uadd M
  omega

theorem chainInv_init {T : Type} (f : Nat → T) (C : Nat) :
    ChainInv C (initState f C) :=
  ⟨0, 0, 0, 0, 0, 0, le_refl 0, le_refl 0, le_refl 0, le_refl 0, le_refl 0,
    by omega, by simp [initState], by simp [initState], by simp [initState],
    by simp [initState], by simp [initState], by simp [initState], rfl⟩

/-- Every step of either endpoint preserves the index-chain invariant. -/
theorem chainInv_step {T : Type} {C : Nat} {s s' : State T}
    (hC1 : 1 ≤ C) (hCM : C < M) (hInv : ChainInv C s) (hs : Step s s') :
    ChainInv C s' := by
  obtain ⟨a, b, c, d, e, p, hab, hbc, hcd, hde, hep, hpa, ha, hb, hc, hd, he,
    hp, hq⟩ := hInv
  cases hs with
  | push x force h =>
    rw [prod_has_space_snd, decide_eq_true_eq, hp, hb, hq] at h
    rw [usub_mod_mod (by omega) (by omega),
      usub_eq_sub hC1 (by omega)] at h
    cases force with
    | false =>
      exact ⟨b, b, c, d, e, p + 1, le_refl b, hbc, hcd, hde, by omega,
        by omega, by simp [hb], by simp [hb], by simp [hc], by simp [hd],
        by simp [he], by simp [hp, uadd_mod], by simp [hq]⟩
    | true =>
      exact ⟨b, b, c, d, p + 1, p + 1, le_refl b, hbc, hcd, by omega,
        le_refl _, by omega, by simp [hb], by simp [hb], by simp [hc],
        by simp [hd], by simp [hp, uadd_mod], by simp [hp, uadd_mod],
        by simp [hq]⟩
  | pop h =>
    rw [cons_has_data_snd, decide_eq_true_eq, he, hc] at h
    rw [usub_mod_mod (by omega) (by omega)] at h
    rcases pop_back_cons_index_cases s with hbi | hbi
    · exact ⟨a, b, c + 1, e, e, p, hab, by omega, by omega, le_refl e, hep,
        hpa, by simp [ha], by rw [hbi, hb], by simp [hc, uadd_mod],
        by simp [he], by simp [he], by simp [hp], by simp [hq]⟩
    · exact ⟨a, c + 1, c + 1, e, e, p, by omega, le_refl _, by omega,
        le_refl e, hep, hpa, by simp [ha], by rw [hbi, hc, uadd_mod],
        by simp [hc, uadd_mod], by simp [he], by simp [he], by simp [hp],
        by simp [hq]⟩
  | pop_batch v h =>
    rw [cons_has_data_snd, decide_eq_true_eq, he, hc] at h
    rw [usub_mod_mod (by omega) (by omega)] at h
    have hciNew : uadd s.cons_ci (usub s.__prod_index s.cons_ci) = e % M := by
      rw [hc, he, usub_mod_mod (by omega) (by omega), uadd_mod]
      congr 1
      omega
    rcases pop_back_vec_cons_index_cases s v with hbi | hbi
    · exact ⟨a, b, e, e, e, p, hab, by omega, le_refl e, le_refl e, hep, hpa,
        by simp [ha], by rw [hbi, hb], by simp [hciNew], by simp [he],
        by simp [he], by simp [hp], by simp [hq]⟩
    · exact ⟨a, e, e, e, e, p, by omega, le_refl e, le_refl e, le_refl e,
        hep, hpa, by simp [ha], by rw [hbi, hciNew], by simp [hciNew],
        by simp [he], by simp [he], by simp [hp], by simp [hq]⟩
  | prod_stall want h =>
    obtain ⟨s4, hpark, hev, hci, hpi4, hidx4, hcons4, hcc4, hcp4, hce4, hqc4,
      hrc4, hr4, hsem4⟩ := prod_wait_space_once_stall s want h
    rw [hpark]
    exact ⟨b, b, c, d, p, p, le_refl b, hbc, hcd, by omega, le_refl p,
      by omega, by simp [WaitStep.state, hci, hb],
      by simp [WaitStep.state, hcons4, hb], by simp [WaitStep.state, hcc4, hc],
      by simp [WaitStep.state, hcp4, hd], by simp [WaitStep.state, hidx4, hp],
      by simp [WaitStep.state, hpi4, hp], by simp [WaitStep.state, hqc4, hq]⟩
  | cons_stall want h =>
    obtain ⟨s5, hpark, hcp5, hcc5, hidx5, hev5, hpp5, hpc5, hpi5, hpe5, hqc5,
      hrc5, hr5, hsem5⟩ := cons_wait_data_once_stall s want h
    rw [hpark]
    exact ⟨a, c, c, e, e, p, by omega, le_refl c, by omega, le_refl e, hep,
      hpa, by simp [WaitStep.state, hpc5, ha],
      by simp [WaitStep.state, hidx5, hc], by simp [WaitStep.state, hcc5, hc],
      by simp [WaitStep.state, hcp5, he], by simp [WaitStep.state, hpi5, he],
      by simp [WaitStep.state, hpp5, hp], by simp [WaitStep.state, hqc5, hq]⟩
  | prod_wake =>
    exact ⟨b, b, c, d, e, p, le_refl b, hbc, hcd, hde, hep, by omega,
      by simp [prodWake, hb], by simp [prodWake, hb], by simp [prodWake, hc],
      by simp [prodWake, hd], by simp [prodWake, he], by simp [prodWake, hp],
      by simp [prodWake, hq]⟩
  | cons_wake =>
    exact ⟨a, b, c, d, e, p, hab, hbc, hcd, hde, hep, hpa,
      by simp [consWake, ha], by simp [consWake, hb], by simp [consWake, hc],
      by simp [consWake, hd], by simp [consWake, he], by simp [consWake, hp],
      by simp [consWake, hq]⟩

theorem reachable_chainInv {T : Type} {C : Nat} {f : Nat → T} {s : State T}
    (hC1 : 1 ≤ C) (hCM : C < M) (h : Reachable C f s) : ChainInv C s := by
  induction h with
  | init => exact chainInv_init f C
  | step _ hst ih => exact chainInv_step hC1 hCM ih hst

/-- C2.  Occupancy invariant: for every queue constructed with requested
capacity `1 ≤ C ≤ 2^63` and every state reachable under any interleaving
of producer and consumer steps (each push guarded by its
`prod_wait_space(1)` check, which only succeeds when `P - Q ≤ C - 1`),
the producer and consumer indices are the 64-bit images of unbounded
counters `q ≤ p` with `p - q ≤ C`; in particular the machine-level
occupancy `index_t(prod_pi - cons_ci)` is at most `C`. -/
theorem c2_occupancy {T : Type} (C : Nat) (f : Nat → T) (s : State T)
    (hC1 : 1 ≤ C) (hCM : C ≤ maxSize) (h : Reachable C f s) :
    usub s.prod_pi s.cons_ci ≤ C
    ∧ ∃ p q : Nat, q ≤ p ∧ p - q ≤ C
        ∧ s.prod_pi = p % M ∧ s.cons_ci = q % M := by
  have hM : C < M := lt_of_le_of_lt hCM (by unfold maxSize M; norm_num)
  obtain ⟨a, b, c, d, e, p, hab, hbc, hcd, hde, hep, hpa, ha, hb, hc, hd, he,
    hp, hq⟩ := reachable_chainInv hC1 hM h
  constructor
  · rw [hp, hc, usub_mod_mod (by omega) (by omega)]
    omega
  · exact ⟨p, c, by omega, by omega, hp, hc⟩

/-- Witness for C2: the freshly constructed capacity-1 queue is
reachable and has occupancy 0 ≤ 1. -/
theorem c2_occupancy_witness :
    1 ≤ (1 : Nat)
    ∧ usub (initState (fun _ => (0 : Nat)) 1).prod_pi
        (initState (fun _ => (0 : Nat)) 1).cons_ci ≤ 1 :=
  ⟨le_refl 1,
   (c2_occupancy 1 (fun _ => (0 : Nat)) (initState (fun _ => (0 : Nat)) 1)
      (le_refl 1) (by unfold maxSize; norm_num) Reachable.init).1⟩

/-! ## C3: FIFO round-trip -/

/-- Characterization of a producer-only run: pushing `ys` (all forced)
onto a queue whose consumer side is untouched succeeds, advances both
producer indices by `ys.length`, stores `ys` in consecutive ring slots
and leaves all other slots unchanged. -/
theorem pushListG_char {T : Type} (C t : Nat) (hC1 : 1 ≤ C)
    (hCM : C ≤ maxSize) (hCN : C ≤ 2 ^ t) :
    ∀ (ys : List T) (k : Nat) (s : State T),
      s.queue_capacity = C → s.ring_capacity = 2 ^ t →
      s.prod_pi = k → s.__prod_index = k → s.__cons_index = 0 →
      s.cons_ci = 0 → s.cons_pi = 0 → s.cons_event = 0 →
      k + ys.length ≤ C →
      ∃ s2, pushListG s ys = some s2
        ∧ s2.queue_capacity = C ∧ s2.ring_capacity = 2 ^ t
        ∧ s2.prod_pi = k + ys.length ∧ s2.__prod_index = k + ys.length
        ∧ s2.__cons_index = 0 ∧ s2.cons_ci = 0 ∧ s2.cons_pi = 0
        ∧ s2.cons_event = 0
        ∧ (∀ j (hj : j < ys.length),
            s2.ring ((k + j) % 2 ^ t) = ys.get ⟨j, hj⟩)
        ∧ (∀ m, (∀ j, j < ys.length → m ≠ (k + j) % 2 ^ t) →
            s2.ring m = s.ring m) := by
  intro ys
  induction ys with
  | nil =>
    intro k s hqc hrc hpp hpidx hcidx hcc hcp hce hk
    exact ⟨s, rfl, hqc, hrc, by simpa using hpp, by simpa using hpidx, hcidx,
      hcc, hcp, hce, fun j hj => absurd hj (by simp),
      fun m _ => rfl⟩
  | cons y ys ih =>
    intro k s hqc hrc hpp hpidx hcidx hcc hcp hce hk
    have hM : C < M := lt_of_le_of_lt hCM (by unfold maxSize M; norm_num)
    have hk1 : k + (ys.length + 1) ≤ C := by simpa using hk
    have h2t : C ≤ 2 ^ t := hCN
    have hguard : (prod_has_space s 1).2 = true := by
      rw [prod_has_space_snd, decide_eq_true_eq, hpp, hcidx, hqc]
      rw [usub_eq_sub (Nat.zero_le k) (by omega), usub_eq_sub hC1 (by omega)]
      omega
    have hstep : pushListG s (y :: ys) = pushListG (push_front s y true).2 ys := by
      simp [pushListG, hguard]
    have hring1 : (push_front s y true).2.ring =
        Function.update s.ring (k % 2 ^ t) y := by
      rw [push_front_ring]
      unfold normalize_index
      rw [hpp, hrc, Nat.and_pow_two_sub_one_eq_mod]
    obtain ⟨s2, hpush, p1, p2, p3, p4, p5, p6, p7, p8, p9, p10⟩ :=
      ih (k + 1) (push_front s y true).2 (by simp [hqc]) (by simp [hrc])
        (by rw [push_front_prod_pi, hpp, uadd_eq_add (by omega)])
        (by rw [push_front_true_prod_index, hpp, uadd_eq_add (by omega)])
        (by simp [hcidx]) (by simp [hcc]) (by simp [hcp]) (by simp [hce])
        (by omega)
    refine ⟨s2, by rw [hstep]; exact hpush, p1, p2,
      by rw [p3]; simp only [List.length_cons]; omega,
      by rw [p4]; simp only [List.length_cons]; omega,
      p5, p6, p7, p8, ?_, ?_⟩
    · intro j hj
      match j, hj with
      | 0, hj =>
        have hne : ∀ j2, j2 < ys.length → k % 2 ^ t ≠ (k + 1 + j2) % 2 ^ t := by
          intro j2 hj2
          rw [Nat.mod_eq_of_lt (by omega), Nat.mod_eq_of_lt (by omega)]
          omega
        rw [show k + 0 = k from by omega, p10 (k % 2 ^ t) hne, hring1]
        simp
      | j2 + 1, hj =>
        have hj2 : j2 < ys.length := by simpa using hj
        have := p9 j2 hj2
        rw [show k + (j2 + 1) = k + 1 + j2 from by omega]
        rw [this]
        simp
    · intro m hm
      have hm1 : ∀ j2, j2 < ys.length → m ≠ (k + 1 + j2) % 2 ^ t := by
        intro j2 hj2
        rw [show k + 1 + j2 = k + (j2 + 1) from by omega]
        exact hm (j2 + 1) (by simp; omega)
      rw [p10 m hm1, hring1]
      refine Function.update_noteq ?_ y s.ring
      have := hm 0 (by simp)
      simpa using this

/-- Characterization of a consumer-only run: popping the remaining
`n = xs.length - j` elements of a fully pushed and published sequence
`xs` succeeds and returns `xs.drop j`, leaving the consumer index equal
to the producer index. -/
theorem popNG_char {T : Type} (C t : Nat) (hCM : C ≤ maxSize)
    (hCN : C ≤ 2 ^ t) :
    ∀ (n j : Nat) (s : State T) (xs : List T),
      s.ring_capacity = 2 ^ t →
      s.prod_pi = xs.length → s.__prod_index = xs.length →
      s.cons_ci = j →
      (∀ i (hi : i < xs.length), s.ring (i % 2 ^ t) = xs.get ⟨i, hi⟩) →
      j + n = xs.length → xs.length ≤ C →
      ∃ s2, popNG s n = some (s2, xs.drop j)
        ∧ s2.prod_pi = xs.length ∧ s2.cons_ci = xs.length
        ∧ s2.__prod_index = xs.length := by
  intro n
  induction n with
  | zero =>
    intro j s xs hrc hpp hpidx hcc hring hj hlen
    have hjl : j = xs.length := by omega
    subst hjl
    exact ⟨s, by simp [popNG], hpp, hcc, hpidx⟩
  | succ n ih =>
    intro j s xs hrc hpp hpidx hcc hring hj hlen
    have hM : C < M := lt_of_le_of_lt hCM (by unfold maxSize M; norm_num)
    have hjlt : j < xs.length := by omega
    have hguard : (cons_has_data s 1).2 = true := by
      rw [cons_has_data_snd, decide_eq_true_eq, hpidx, hcc]
      rw [usub_eq_sub (by omega) (by omega)]
      omega
    have hitem : (pop_back s).2.2 = xs.get ⟨j, hjlt⟩ := by
      rw [pop_back_item]
      unfold normalize_index
      rw [hcc, hrc, Nat.and_pow_two_sub_one_eq_mod]
      exact hring j hjlt
    obtain ⟨s2, hrec, q1, q2, q3⟩ :=
      ih (j + 1) (pop_back s).2.1 xs (by simp [hrc]) (by simp [hpp])
        (by simp [hpidx])
        (by rw [pop_back_cons_ci, hcc, uadd_eq_add (by omega)])
        (fun i hi => by rw [pop_back_ring]; exact hring i hi)
        (by omega) hlen
    refine ⟨s2, ?_, q1, q2, q3⟩
    rw [show popNG s (n + 1) =
        (match popNG (pop_back s).2.1 n with
         | some (s3, out) => some (s3, (pop_back s).2.2 :: out)
         | none => none) from by simp [popNG, hguard]]
    rw [hrec, hitem, List.drop_eq_getElem_cons hjlt]
    simp

/-- Frame property of a write run: a slot hit by none of the writes keeps
its prior contents. -/
theorem ringWrites_frame {T : Type} (N : Nat) :
    ∀ (ys : List T) (k : Nat) (g : Nat → T) (slot : Nat),
      (∀ j, j < ys.length → (k + j) % N ≠ slot) →
      ringWrites N k ys g slot = g slot := by
  intro ys
  induction ys with
  | nil => intro k g slot _; rfl
  | cons y ys ih =>
    intro k g slot h
    show ringWrites N (k + 1) ys (Function.update g (k % N) y) slot = g slot
    rw [ih (k + 1) _ slot (fun j hj => by
      rw [show k + 1 + j = k + (j + 1) from by omega]
      exact h (j + 1) (by simpa using Nat.succ_lt_succ hj))]
    have h0 : (k + 0) % N ≠ slot := h 0 (by simp)
    refine Function.update_noteq ?_ y g
    simpa using Ne.symm h0

/-- A slot hit by at least one write of a constant run ends up holding
the constant. -/
theorem ringWrites_replicate_mem {T : Type} (N : Nat) (a : T) :
    ∀ (m k : Nat) (g : Nat → T) (slot : Nat),
      (∃ j, j < m ∧ (k + j) % N = slot) →
      ringWrites N k (List.replicate m a) g slot = a := by
  intro m
  induction m with
  | zero =>
    intro k g slot h
    obtain ⟨j, hj, _⟩ := h
    omega
  | succ m ih =>
    intro k g slot h
    rw [List.replicate_succ]
    show ringWrites N (k + 1) (List.replicate m a)
      (Function.update g (k % N) a) slot = a
    by_cases hex : ∃ j, j < m ∧ (k + 1 + j) % N = slot
    · exact ih (k + 1) _ slot hex
    · obtain ⟨j, hj, hjs⟩ := h
      have hj0 : j = 0 := by
        by_contra hne
        exact hex ⟨j - 1, by omega,
          by rw [show k + 1 + (j - 1) = k + j from by omega]; exact hjs⟩
      subst hj0
      have hslot : slot = k % N := by simpa using hjs.symm
      rw [ringWrites_frame N (List.replicate m a) (k + 1) _ slot
        (fun j2 hj2 h2 => hex ⟨j2, by simpa using hj2, h2⟩)]
      rw [hslot]
      simp

/-- Characterization of a producer-only run without any assumption
relating the capacity to the ring size: the guarded pushes all succeed
(only `queue_capacity` is consulted) and the final ring contents are the
write run `ringWrites` — including any wrap-around overwrites. -/
theorem pushListG_wrap {T : Type} (C t : Nat) (hC1 : 1 ≤ C) (hCM : C < M) :
    ∀ (ys : List T) (k : Nat) (s : State T),
      s.queue_capacity = C → s.ring_capacity = 2 ^ t →
      s.prod_pi = k → s.__prod_index = k → s.__cons_index = 0 →
      s.cons_ci = 0 → s.cons_pi = 0 → s.cons_event = 0 →
      k + ys.length ≤ C →
      ∃ s2, pushListG s ys = some s2
        ∧ s2.queue_capacity = C ∧ s2.ring_capacity = 2 ^ t
        ∧ s2.prod_pi = k + ys.length ∧ s2.__prod_index = k + ys.length
        ∧ s2.__cons_index = 0 ∧ s2.cons_ci = 0 ∧ s2.cons_pi = 0
        ∧ s2.cons_event = 0
        ∧ s2.ring = ringWrites (2 ^ t) k ys s.ring := by
  intro ys
  induction ys with
  | nil =>
    intro k s hqc hrc hpp hpidx hcidx hcc hcp hce hk
    exact ⟨s, rfl, hqc, hrc, by simpa using hpp, by simpa using hpidx, hcidx,
      hcc, hcp, hce, rfl⟩
  | cons y ys ih =>
    intro k s hqc hrc hpp hpidx hcidx hcc hcp hce hk
    have hk1 : k + (ys.length + 1) ≤ C := by simpa using hk
    have hguard : (prod_has_space s 1).2 = true := by
      rw [prod_has_space_snd, decide_eq_true_eq, hpp, hcidx, hqc]
      rw [usub_eq_sub (Nat.zero_le k) (by omega), usub_eq_sub hC1 (by omega)]
      omega
    have hstep : pushListG s (y :: ys) = pushListG (push_front s y true).2 ys := by
      simp [pushListG, hguard]
    have hring1 : (push_front s y true).2.ring =
        Function.update s.ring (k % 2 ^ t) y := by
      rw [push_front_ring]
      unfold normalize_index
      rw [hpp, hrc, Nat.and_pow_two_sub_one_eq_mod]
    obtain ⟨s2, hpush, p1, p2, p3, p4, p5, p6, p7, p8, p9⟩ :=
      ih (k + 1) (push_front s y true).2 (by simp [hqc]) (by simp [hrc])
        (by rw [push_front_prod_pi, hpp, uadd_eq_add (by omega)])
        (by rw [push_front_true_prod_index, hpp, uadd_eq_add (by omega)])
        (by simp [hcidx]) (by simp [hcc]) (by simp [hcp]) (by simp [hce])
        (by omega)
    refine ⟨s2, by rw [hstep]; exact hpush, p1, p2,
      by rw [p3]; simp only [List.length_cons]; omega,
      by rw [p4]; simp only [List.length_cons]; omega,
      p5, p6, p7, p8, ?_⟩
    rw [p9, hring1]
    rfl

theorem ringWrites_cons {T : Type} (N k : Nat) (y : T) (ys : List T)
    (g : Nat → T) :
    ringWrites N k (y :: ys) g =
      ringWrites N (k + 1) ys (Function.update g (k % N) y) := rfl

theorem popNG_succ_true {T : Type} (s : State T) (n : Nat)
    (h : (cons_has_data s 1).2 = true) :
    popNG s (n + 1) =
      match popNG (pop_back s).2.1 n with
      | some (s2, out) => some (s2, (pop_back s).2.2 :: out)
      | none => none := by
  simp only [popNG]
  rw [if_pos h]

/-- Counterexample to C3 as stated: at capacity `C = 2^54 + 1` (inside
the claimed domain, and with `k = C` pushes, inside `1 ≤ k ≤ C`) the
constructor's double-precision ring sizing produces only `2^54` slots, so
the last of the `k` forced pushes (all of which complete — the space
check consults only `queue_capacity`) wraps around and overwrites slot 0.
The first value pushed was `7`, but the first pop returns `9`, and the
`k` pops cannot return the pushed sequence. -/
theorem c3_fifo_fails_when_ring_undersized :
    (2 : Nat) ^ 54 + 1 ≤ 2 ^ 63
    ∧ ((7 : Nat) :: List.replicate (2 ^ 54) 9).length = 2 ^ 54 + 1
    ∧ ∃ s : State Nat,
        pushListG (initState (fun _ => (0 : Nat)) (2 ^ 54 + 1))
          ((7 : Nat) :: List.replicate (2 ^ 54) 9) = some s
        ∧ (cons_has_data s 1).2 = true
        ∧ (pop_back s).2.2 = 9
        ∧ ∀ (s2 : State Nat) (out : List Nat),
            popNG s (2 ^ 54 + 1) = some (s2, out) →
            out ≠ (7 : Nat) :: List.replicate (2 ^ 54) 9 := by
  have hlen : ((7 : Nat) :: List.replicate (2 ^ 54) 9).length = 2 ^ 54 + 1 := by
    rw [List.length_cons, List.length_replicate]
  refine ⟨by norm_num, hlen, ?_⟩
  have hrc : (initState (fun _ => (0 : Nat)) (2 ^ 54 + 1)).ring_capacity
      = 2 ^ 54 := by
    show ringCapacity (2 ^ 54 + 1) = 2 ^ 54
    exact ringCapacity_pow54_succ
  obtain ⟨s, hpush, m1, m2, m3, m4, m5, m6, m7, m8, m9⟩ :=
    pushListG_wrap (2 ^ 54 + 1) 54 (by norm_num) (by unfold M; norm_num)
      ((7 : Nat) :: List.replicate (2 ^ 54) 9) 0
      (initState (fun _ => (0 : Nat)) (2 ^ 54 + 1))
      rfl hrc rfl rfl rfl rfl rfl rfl (by rw [hlen]; omega)
  have hpidx : s.__prod_index = 2 ^ 54 + 1 := by
    rw [m4, hlen]
    omega
  have hguard : (cons_has_data s 1).2 = true := by
    rw [cons_has_data_snd, hpidx, m6]
    simp only [decide_eq_true_eq]
    rw [usub_eq_sub (Nat.zero_le _) (by unfold M; norm_num)]
    omega
  have hitem : (pop_back s).2.2 = 9 := by
    rw [pop_back_item]
    unfold normalize_index
    rw [m6, m2, Nat.zero_and, m9, ringWrites_cons]
    exact ringWrites_replicate_mem _ _ _ _ _ _
      ⟨2 ^ 54 - 1, by omega,
       by rw [show 0 + 1 + (2 ^ 54 - 1) = 2 ^ 54 from by omega]
          exact Nat.mod_self _⟩
  refine ⟨s, hpush, hguard, hitem, ?_⟩
  intro s2 out hpop heq
  rw [popNG_succ_true s (2 ^ 54) hguard] at hpop
  cases hrec : popNG (pop_back s).2.1 (2 ^ 54) with
  | none =>
    rw [hrec] at hpop
    simp at hpop
  | some r =>
    obtain ⟨s3, o⟩ := r
    rw [hrec] at hpop
    simp only [Option.some.injEq, Prod.mk.injEq] at hpop
    obtain ⟨hs, hout⟩ := hpop
    rw [← hout, hitem] at heq
    injection heq with h1 h2
    exact absurd h1 (by decide)

/-- C3 (amended).  FIFO round-trip: for every element type, every
capacity `1 ≤ C ≤ 2^48` — so that the double-precision ring sizing
provably yields a ring of at least `C` slots — and every list `xs` with
`1 ≤ xs.length ≤ C`, executing `xs.length` forced pushes of `xs` on a
fresh queue (each completing without waiting) followed by `xs.length`
single-element pops (each completing without waiting) returns exactly
`xs`, in push order, with each value the very value pushed, and leaves
the queue empty (`prod_pi = cons_ci`).  For larger capacities the ring
can be smaller than `C` and a full round trip loses data (see the
counterexample at `C = 2^54 + 1`). -/
theorem c3_fifo_round_trip {T : Type} (f : Nat → T) (C : Nat) (xs : List T)
    (hC48 : C ≤ 2 ^ 48) (h1 : 1 ≤ xs.length) (h2 : xs.length ≤ C) :
    ∃ s s2, pushListG (initState f C) xs = some s
      ∧ popNG s xs.length = some (s2, xs)
      ∧ s2.prod_pi = s2.cons_ci := by
  have hC1 : 1 ≤ C := le_trans h1 h2
  have hCM : C ≤ maxSize := le_trans hC48 (by unfold maxSize; norm_num)
  have hCN : C ≤ 2 ^ Nat.clog 2 C := Nat.le_pow_clog (by norm_num) C
  have hrc : (initState f C).ring_capacity = 2 ^ Nat.clog 2 C := by
    show ringCapacity C = 2 ^ Nat.clog 2 C
    rw [ringCapacity_eq, toDouble_of_lt (lt_of_le_of_lt hC48 (by norm_num)),
      Nat.one_shiftLeft]
  obtain ⟨s, hpush, p1, p2, p3, p4, p5, p6, p7, p8, p9, p10⟩ :=
    pushListG_char C (Nat.clog 2 C) hC1 hCM hCN xs 0 (initState f C)
      rfl hrc rfl rfl rfl rfl rfl rfl (by omega)
  obtain ⟨s2, hpop, q1, q2, q3⟩ :=
    popNG_char C (Nat.clog 2 C) hCM hCN xs.length 0 s xs p2
      (by simpa using p3) (by simpa using p4) p6
      (fun i hi => by have := p9 i hi; simpa using this)
      (by omega) h2
  exact ⟨s, s2, hpush, by simpa using hpop, by rw [q1, q2]⟩

/-- Witness for C3 with `C = 2`, `xs = [10, 20]`. -/
theorem c3_fifo_round_trip_witness :
    ∃ s s2, pushListG (initState (fun _ => (0 : Nat)) 2) [10, 20] = some s
      ∧ popNG s 2 = some (s2, [10, 20])
      ∧ s2.prod_pi = s2.cons_ci :=
  c3_fifo_round_trip (fun _ => (0 : Nat)) 2 [10, 20]
    (by norm_num) (by decide) (by decide)

end SPSCQueue
